import Mathlib

/-!
Verification of the bounded-registers crate core: bounded scalar values
(`src/bounds.rs`), fields and the Positioned combination algebra
(`src/register.rs`), and the three access-mode register surfaces generated
by the `register!` macro (`src/macros.rs`).

The embedding works over `Nat` with an explicit register width `w`: a
machine value of the `w`-bit unsigned width type is a natural number below
`2 ^ w`, bitwise complement is XOR against the all-ones word, and a left
shift is reduced modulo `2 ^ w` where the machine operation truncates.
-/

namespace BoundedRegisters

/-- The all-ones word of width `w`, that is `2 ^ w - 1`. -/
def ones (w : Nat) : Nat := 2 ^ w - 1

/-- Bitwise complement `!x` of a `w`-bit unsigned value, embedded as XOR
against the all-ones word of width `w`. -/
def wnot (w x : Nat) : Nat := ones w ^^^ x

/-- Runtime value of `Bounded<N, L, U>` from `src/bounds.rs`: the wrapped
scalar member `val`. The type-level bounds `L`, `U` become ordinary
arguments of the constructor function below. -/
structure Bounded where
  val : Nat
deriving DecidableEq

/-- Constructor `Bounded::new` from `src/bounds.rs` (lines 25-35): returns
`Some` exactly when `L <= val && val <= U`, storing `val` unchanged;
otherwise `None`. -/
def Bounded.new (l u v : Nat) : Option Bounded :=
  if l ≤ v ∧ v ≤ u then some ⟨v⟩ else none

/-- Runtime data of `Field<W, M, O, U>` from `src/register.rs`: the
reified mask `M`, offset `O` and upper bound `U` (kept as data because the
embedding erases type-level numbers) together with the bounded value. -/
structure Field where
  mask : Nat
  offset : Nat
  upper : Nat
  valB : Bounded
deriving DecidableEq

/-- Method `Field::val` from `src/register.rs` (line 220): the raw stored
value. -/
def Field.val (f : Field) : Nat := f.valB.val

/-- Constructor `Field::new` from `src/register.rs` (lines 186-192):
`Bounded::new(val)` with lower bound `0` and upper bound `U`, mapped into
a `Field` with the given descriptor. -/
def Field.new (mask off upper v : Nat) : Option Field :=
  (Bounded.new 0 upper v).map fun b => ⟨mask, off, upper, b⟩

/-- Method `Field::set` from `src/register.rs` (lines 196-201): revalidate
`val` against `[0, U]` and replace the stored value on success. -/
def Field.set (f : Field) (v : Nat) : Option Field :=
  (Bounded.new 0 f.upper v).map fun b => { f with valB := b }

/-- Method `Field::is_set` from `src/register.rs` (lines 226-228): whether
the stored value equals the upper bound. -/
def Field.is_set (f : Field) : Bool := f.val == f.upper

/-- The `Positioned::in_position` implementation for `Field` from
`src/register.rs` (lines 279-281): `val << offset`, performed on the
`w`-bit width type, hence reduced modulo `2 ^ w`. -/
def Field.in_position (w : Nat) (f : Field) : Nat :=
  (f.val <<< f.offset) % 2 ^ w

/-- The intermediate result `FieldDisj` of summing fields, from
`src/register.rs` (lines 287-290): a mask and an already-positioned
value. -/
structure FieldDisj where
  mask : Nat
  val : Nat
deriving DecidableEq

/-- The `Add` implementation with two `Field` operands from
`src/register.rs` (lines 326-331): value is the OR of the two shifted
values, mask is the OR of the two masks. -/
def Field.add (w : Nat) (a b : Field) : FieldDisj :=
  ⟨a.mask ||| b.mask,
   ((a.val <<< a.offset) % 2 ^ w) ||| ((b.val <<< b.offset) % 2 ^ w)⟩

/-- The `Add` implementation with a `Field` on the left and a `FieldDisj`
on the right, from `src/register.rs` (lines 353-358). -/
def Field.addDisj (w : Nat) (a : Field) (d : FieldDisj) : FieldDisj :=
  ⟨a.mask ||| d.mask, ((a.val <<< a.offset) % 2 ^ w) ||| d.val⟩

/-- The `Add` implementation with a `FieldDisj` on the left and a `Field`
on the right, from `src/register.rs` (lines 380-385). -/
def FieldDisj.addField (w : Nat) (d : FieldDisj) (b : Field) : FieldDisj :=
  ⟨d.mask ||| b.mask, d.val ||| ((b.val <<< b.offset) % 2 ^ w)⟩

/-- Shape of a `+`-combination of fields as the Rust `Add` instances type
it: two fields, a field plus a combination, or a combination plus a
field (there is no instance combining two `FieldDisj` values). -/
inductive DisjExpr where
  | ff (a b : Field)
  | fd (a : Field) (d : DisjExpr)
  | df (d : DisjExpr) (b : Field)
deriving DecidableEq

/-- Evaluate a `+`-combination through the three `Add` implementations of
`src/register.rs`. -/
def DisjExpr.eval (w : Nat) : DisjExpr → FieldDisj
  | .ff a b => Field.add w a b
  | .fd a d => Field.addDisj w a (d.eval w)
  | .df d b => FieldDisj.addField w (d.eval w) b

/-- A value acceptable where the register API takes `V: Positioned`:
either a single `Field` or a `+`-combination. -/
inductive PosArg where
  | single (f : Field)
  | combined (d : DisjExpr)
deriving DecidableEq

/-- The `Positioned::mask` of an argument: `M::reify()` for a field
(`src/register.rs` lines 274-276), the stored mask for a combination
(lines 295-297). -/
def PosArg.mask (w : Nat) : PosArg → Nat
  | .single f => f.mask
  | .combined d => (d.eval w).mask

/-- The `Positioned::in_position` of an argument: the shifted value for a
field (`src/register.rs` lines 279-281), the stored value for a
combination (lines 299-301). -/
def PosArg.in_position (w : Nat) : PosArg → Nat
  | .single f => f.in_position w
  | .combined d => (d.eval w).val

/-! Register operations. The generated `Register` of each mode wraps one
`Width` cell (`#[repr(C)] pub struct Register(Width);`); its state is the
raw cell value, a natural number below `2 ^ w`. Volatile loads and stores
of that cell become reads and returns of the state value. -/

/-- Method `read` of the RW-mode register, `src/macros.rs` (lines
378-380): one load of the whole cell. -/
def Register.read (raw : Nat) : Nat := raw

/-- Method `extract` of the RW-mode register, `src/macros.rs` (lines
384-386): one load wrapped into a `ReadOnlyCopy`, here its payload. -/
def Register.extract (raw : Nat) : Nat := raw

/-- Method `write` of the RW-mode register, `src/macros.rs` (lines
431-433): store the given `Width` value. -/
def Register.write (v : Nat) : Nat := v

/-- Method `modify` of the RW-mode register, `src/macros.rs` (lines
419-427): one load, compute `(raw & !val.mask()) | val.in_position()`,
one store; the function returns the stored cell value. -/
def Register.modify (w raw : Nat) (p : PosArg) : Nat :=
  (raw &&& wnot w (p.mask w)) ||| p.in_position w

/-- Method `get_field` of the RW-mode register, `src/macros.rs` (lines
361-375): `f.set((raw & M::reify()) >> O::reify())`. -/
def Register.get_field (raw : Nat) (f : Field) : Option Field :=
  f.set ((raw &&& f.mask) >>> f.offset)

/-- Method `is_set` of the RW-mode register, `src/macros.rs` (lines
391-401): `((raw & M::reify()) >> O::reify()) == U::reify()`. -/
def Register.is_set (raw : Nat) (f : Field) : Bool :=
  ((raw &&& f.mask) >>> f.offset) == f.upper

/-- Method `matches_any` of the RW-mode register, `src/macros.rs` (lines
405-407): `(val.in_position() & raw) != 0`. -/
def Register.matches_any (w raw : Nat) (p : PosArg) : Bool :=
  (p.in_position w &&& raw) != 0

/-- Method `matches_all` of the RW-mode register, `src/macros.rs` (lines
411-414): `(val.in_position() & raw) == val.in_position()`. -/
def Register.matches_all (w raw : Nat) (p : PosArg) : Bool :=
  (p.in_position w &&& raw) == p.in_position w

/-- Method `modify` of the WO-mode register, `src/macros.rs` (lines
327-335): one load, compute `(raw & !val.mask()) | val.in_position()`,
one store, exactly as in RW mode. -/
def WriteOnly.modify (w raw : Nat) (p : PosArg) : Nat :=
  (raw &&& wnot w (p.mask w)) ||| p.in_position w

/-! The `ReadOnlyCopy` snapshot from `src/register.rs` (lines 112-160):
a plain wrapper around one captured `Width` value, with the query methods
reimplemented against the wrapped value. -/

/-- Method `get_field` of `ReadOnlyCopy`, `src/register.rs` (lines
120-131): `f.set((self.0 & M::reify()) >> O::reify())`. -/
def ReadOnlyCopy.get_field (c : Nat) (f : Field) : Option Field :=
  f.set ((c &&& f.mask) >>> f.offset)

/-- Method `read` of `ReadOnlyCopy`, `src/register.rs` (lines 133-135). -/
def ReadOnlyCopy.read (c : Nat) : Nat := c

/-- Method `extract` of `ReadOnlyCopy`, `src/register.rs` (lines
137-139): a copy of itself. -/
def ReadOnlyCopy.extract (c : Nat) : Nat := c

/-- Method `is_set` of `ReadOnlyCopy`, `src/register.rs` (lines
141-149): `((self.0 & M::reify()) >> O::reify()) == U::reify()`. -/
def ReadOnlyCopy.is_set (c : Nat) (f : Field) : Bool :=
  ((c &&& f.mask) >>> f.offset) == f.upper

/-- Method `matches_any` of `ReadOnlyCopy`, `src/register.rs` (lines
151-153): `(val.in_position() & self.0) != W::default()`. -/
def ReadOnlyCopy.matches_any (w c : Nat) (p : PosArg) : Bool :=
  (p.in_position w &&& c) != 0

/-- Method `matches_all` of `ReadOnlyCopy`, `src/register.rs` (lines
157-159): `(val.in_position() & self.0) == val.in_position()`. -/
def ReadOnlyCopy.matches_all (w c : Nat) (p : PosArg) : Bool :=
  (p.in_position w &&& c) == p.in_position w

/-! Well-formedness of macro-generated field descriptors. The `register!`
macro (`src/macros.rs` line 114) instantiates every field with mask
`((1 << width) - 1) << offset` and upper bound `(1 << width) - 1`, for a
declaration with `offset + width` at most the register width. -/

/-- A field descriptor generated for bit width `width` inside a `w`-bit
register, holding an in-range value. -/
def Field.wfWidth (w width : Nat) (f : Field) : Prop :=
  f.upper = ones width ∧ f.mask = ones width <<< f.offset ∧
    f.offset + width ≤ w ∧ f.val ≤ f.upper

/-- A field descriptor generated for some bit width inside a `w`-bit
register, holding an in-range value. -/
def Field.wf (w : Nat) (f : Field) : Prop :=
  ∃ width, f.wfWidth w width

/-- Every field of a `+`-combination is well formed. -/
def DisjExpr.wf (w : Nat) : DisjExpr → Prop
  | .ff a b => a.wf w ∧ b.wf w
  | .fd a d => a.wf w ∧ d.wf w
  | .df d b => d.wf w ∧ b.wf w

/-- A `Positioned` argument built from well-formed fields. -/
def PosArg.wf (w : Nat) : PosArg → Prop
  | .single f => f.wf w
  | .combined d => d.wf w

/-! Concrete fields of the `Status` example register from the crate
itself (`src/macros.rs` lines 444-461 and the `register!` documentation):
an 8-bit RW register with `On` (width 1, offset 0), `Dead` (width 1,
offset 1) and `Color` (width 3, offset 2, `Red = 1`, `Blue = 2`,
`Green = 3`, `Yellow = 4`). The macro derives mask
`((1 << width) - 1) << offset` and upper bound `(1 << width) - 1`. -/

/-- The `Status::On::Read` constant: the `On` descriptor with value 0. -/
def Status.On.Read : Field := ⟨1, 0, 1, ⟨0⟩⟩

/-- The `Status::On::Set` constant: the `On` descriptor at its maximum. -/
def Status.On.Set : Field := ⟨1, 0, 1, ⟨1⟩⟩

/-- The `Status::On::Clear` constant, equal to `Read`. -/
def Status.On.Clear : Field := Status.On.Read

/-- The `Status::Dead::Set` constant: the `Dead` descriptor at its
maximum. -/
def Status.Dead.Set : Field := ⟨2, 1, 1, ⟨1⟩⟩

/-- The `Status::Color::Read` constant: the `Color` descriptor with
value 0. -/
def Status.Color.Read : Field := ⟨28, 2, 7, ⟨0⟩⟩

/-- The `Status::Color::Blue` enumerated constant. -/
def Status.Color.Blue : Field := ⟨28, 2, 7, ⟨2⟩⟩

/-- A fourth pairwise-disjoint example field for combination chains: a
width-2 field at offset 5 of an 8-bit register, holding value 1. -/
def Status.HighBits : Field := ⟨96, 5, 3, ⟨1⟩⟩

instance (w k : Nat) (f : Field) : Decidable (f.wfWidth w k) := by
  unfold Field.wfWidth
  infer_instance

/-! Bit-level helper lemmas. -/

theorem testBit_ones (w i : Nat) : (ones w).testBit i = decide (i < w) :=
  Nat.testBit_two_pow_sub_one w i

theorem testBit_wnot (w x i : Nat) :
    (wnot w x).testBit i = (decide (i < w)).xor (x.testBit i) := by
  simp [wnot, Nat.testBit_xor, testBit_ones]

theorem testBit_false_of_lt (x w i : Nat) (h : x < 2 ^ w) (hi : w ≤ i) :
    x.testBit i = false :=
  Nat.testBit_lt_two_pow (lt_of_lt_of_le h (Nat.pow_le_pow_right (by norm_num) hi))

theorem testBit_lt_of_true (x w i : Nat) (h : x < 2 ^ w)
    (ht : x.testBit i = true) : i < w := by
  by_contra hc
  rw [testBit_false_of_lt x w i h (le_of_not_lt hc)] at ht
  exact Bool.false_ne_true ht

theorem land_eq_self_testBit (a b : Nat) (h : a &&& b = a) (i : Nat) :
    (a.testBit i && b.testBit i) = a.testBit i := by
  have hc : (a &&& b).testBit i = a.testBit i := congrArg (fun x => Nat.testBit x i) h
  rw [Nat.testBit_and] at hc
  exact hc

theorem land_or_mono (a1 b1 a2 b2 : Nat) (h1 : a1 &&& b1 = a1)
    (h2 : a2 &&& b2 = a2) : (a1 ||| a2) &&& (b1 ||| b2) = a1 ||| a2 := by
  apply Nat.eq_of_testBit_eq
  intro i
  have h1i := land_eq_self_testBit a1 b1 h1 i
  have h2i := land_eq_self_testBit a2 b2 h2 i
  simp only [Nat.testBit_and, Nat.testBit_or]
  cases ha1 : a1.testBit i <;> cases ha2 : a2.testBit i <;>
    cases hb1 : b1.testBit i <;> cases hb2 : b2.testBit i <;> simp_all

/-- The read-modify-write core fact: storing
`(pre & !mask) | ip` for an in-mask `ip` leaves the bits outside the
mask unchanged and sets the bits under the mask to `ip`. -/
theorem modify_core (w m ip pre : Nat) (hm : m < 2 ^ w)
    (hip : ip &&& m = ip) :
    ((pre &&& wnot w m) ||| ip) &&& wnot w m = pre &&& wnot w m ∧
    ((pre &&& wnot w m) ||| ip) &&& m = ip := by
  have hipm : ∀ i, (ip.testBit i && m.testBit i) = ip.testBit i :=
    land_eq_self_testBit ip m hip
  constructor <;> apply Nat.eq_of_testBit_eq <;> intro i <;>
      simp only [Nat.testBit_and, Nat.testBit_or, testBit_wnot] <;>
      by_cases hiw : i < w
  · have hi := hipm i
    cases hmi : m.testBit i <;> rw [hmi] at hi <;> simp_all
  · have hm0 : m.testBit i = false := testBit_false_of_lt m w i hm (le_of_not_lt hiw)
    have hi := hipm i
    rw [hm0] at hi
    simp_all
  · have hi := hipm i
    cases hmi : m.testBit i <;> rw [hmi] at hi <;> simp_all
  · have hm0 : m.testBit i = false := testBit_false_of_lt m w i hm (le_of_not_lt hiw)
    have hi := hipm i
    rw [hm0] at hi
    simp_all

/-! Structural facts about well-formed fields and combinations. -/

theorem mask_lt_of_wf (w k off : Nat) (h : off + k ≤ w) :
    ones k <<< off < 2 ^ w := by
  rw [Nat.shiftLeft_eq, ones, Nat.sub_mul, ← Nat.pow_add, one_mul]
  have h1 : 2 ^ (k + off) ≤ 2 ^ w := Nat.pow_le_pow_right (by norm_num) (by omega)
  have h2 : 0 < 2 ^ off := Nat.pos_pow_of_pos off (by norm_num)
  have h3 : 0 < 2 ^ w := Nat.pos_pow_of_pos w (by norm_num)
  omega

theorem shifted_lt_of_wf (w k off v : Nat) (h : off + k ≤ w)
    (hv : v ≤ ones k) : v <<< off < 2 ^ w := by
  have hm := mask_lt_of_wf w k off h
  rw [Nat.shiftLeft_eq] at hm ⊢
  exact lt_of_le_of_lt (Nat.mul_le_mul_right _ hv) hm

theorem shifted_land_mask (k off v : Nat) (hv : v ≤ ones k) :
    (v <<< off) &&& (ones k <<< off) = v <<< off := by
  apply Nat.eq_of_testBit_eq
  intro i
  simp only [Nat.testBit_and, Nat.testBit_shiftLeft, testBit_ones]
  cases hoi : decide (off ≤ i)
  · simp
  · simp only [Bool.true_and]
    cases hvi : v.testBit (i - off)
    · simp
    · have hvk : v < 2 ^ k := by
        have : 0 < 2 ^ k := Nat.pos_pow_of_pos k (by norm_num)
        simp only [ones] at hv
        omega
      have := testBit_lt_of_true v k (i - off) hvk hvi
      simp [this]

/-- A well-formed field has its positioned value inside its mask, the
mask fits in the register width, and the width-type shift does not
truncate. -/
theorem field_spec (w : Nat) (f : Field) (hf : f.wf w) :
    f.in_position w = f.val <<< f.offset ∧
    f.in_position w &&& f.mask = f.in_position w ∧ f.mask < 2 ^ w := by
  obtain ⟨k, hu, hm, ho, hv⟩ := hf
  have hvk : f.val ≤ ones k := hu ▸ hv
  have hlt : f.val <<< f.offset < 2 ^ w := shifted_lt_of_wf w k f.offset f.val ho hvk
  have hip : f.in_position w = f.val <<< f.offset := Nat.mod_eq_of_lt hlt
  refine ⟨hip, ?_, ?_⟩
  · rw [hip, hm]
    exact shifted_land_mask k f.offset f.val hvk
  · rw [hm]
    exact mask_lt_of_wf w k f.offset ho

/-- Every evaluated combination of well-formed fields has its value
inside its mask, and the mask fits in the register width. -/
theorem disj_spec (w : Nat) (d : DisjExpr) (hd : d.wf w) :
    (d.eval w).val &&& (d.eval w).mask = (d.eval w).val ∧
    (d.eval w).mask < 2 ^ w := by
  induction d with
  | ff a b =>
    obtain ⟨ha, hb⟩ := hd
    obtain ⟨hipa, hsa, hma⟩ := field_spec w a ha
    obtain ⟨hipb, hsb, hmb⟩ := field_spec w b hb
    exact ⟨land_or_mono _ _ _ _ hsa hsb, Nat.or_lt_two_pow hma hmb⟩
  | fd a d ih =>
    obtain ⟨ha, hdd⟩ := hd
    obtain ⟨hipa, hsa, hma⟩ := field_spec w a ha
    obtain ⟨hsd, hmd⟩ := ih hdd
    exact ⟨land_or_mono _ _ _ _ hsa hsd, Nat.or_lt_two_pow hma hmd⟩
  | df d b ih =>
    obtain ⟨hdd, hb⟩ := hd
    obtain ⟨hipb, hsb, hmb⟩ := field_spec w b hb
    obtain ⟨hsd, hmd⟩ := ih hdd
    exact ⟨land_or_mono _ _ _ _ hsd hsb, Nat.or_lt_two_pow hmd hmb⟩

/-- Every well-formed `Positioned` argument has its positioned value
inside its mask, and the mask fits in the register width. -/
theorem posArg_spec (w : Nat) (p : PosArg) (hp : p.wf w) :
    p.in_position w &&& p.mask w = p.in_position w ∧ p.mask w < 2 ^ w := by
  cases p with
  | single f =>
    obtain ⟨hip, hs, hm⟩ := field_spec w f hp
    exact ⟨hs, hm⟩
  | combined d =>
    exact disj_spec w d hp

/-- Extraction inverts positioning: shifting a value into place and
masking it back out returns the original value. -/
theorem shift_roundtrip (off v : Nat) : (v <<< off) >>> off = v := by
  rw [Nat.shiftLeft_eq, Nat.shiftRight_eq_div_pow]
  exact Nat.mul_div_cancel v (Nat.pos_pow_of_pos off (by norm_num))

/-- Example combination `Dead::Set + Color::Blue` of the `Status`
register, as one `Positioned` argument. -/
def exampleChain : PosArg :=
  PosArg.combined (DisjExpr.ff Status.Dead.Set Status.Color.Blue)

/-- The example combination is built from well-formed fields. -/
theorem exampleChain_wf : exampleChain.wf 8 :=
  ⟨⟨1, by decide⟩, ⟨3, by decide⟩⟩

/-- C1: on a ReadWrite register, `modify(positioned)` with a positioned
value built from well-formed fields stores
`(raw & !positioned.mask()) | positioned.in_position()` computed from the
loaded value; hence the bits outside the mask keep their prior value and
the bits under the mask equal the in-position value. -/
theorem C1_modify_frame_effect (w : Nat) (p : PosArg) (pre : Nat)
    (hp : p.wf w) :
    Register.modify w pre p &&& wnot w (p.mask w) =
      pre &&& wnot w (p.mask w) ∧
    Register.modify w pre p &&& p.mask w = p.in_position w ∧
    Register.modify w pre p =
      (pre &&& wnot w (p.mask w)) ||| p.in_position w := by
  obtain ⟨hip, hm⟩ := posArg_spec w p hp
  obtain ⟨h1, h2⟩ := modify_core w (p.mask w) (p.in_position w) pre hm hip
  exact ⟨h1, h2, rfl⟩

/-- Witness for C1 at the `Status` example register with prior raw value
5 and the combination `Dead::Set + Color::Blue`. -/
theorem C1_modify_frame_effect_witness :
    exampleChain.wf 8 ∧
    (Register.modify 8 5 exampleChain &&& wnot 8 (exampleChain.mask 8) =
        5 &&& wnot 8 (exampleChain.mask 8) ∧
      Register.modify 8 5 exampleChain &&& exampleChain.mask 8 =
        exampleChain.in_position 8 ∧
      Register.modify 8 5 exampleChain =
        (5 &&& wnot 8 (exampleChain.mask 8)) ||| exampleChain.in_position 8) :=
  ⟨exampleChain_wf, C1_modify_frame_effect 8 exampleChain 5 exampleChain_wf⟩

/-- C2 counterexample: the WriteOnly-mode `modify` stores different
values for different prior register contents under the same positioned
argument, so the stored value does not depend only on the positioned
argument: the implementation reads the cell back. -/
theorem C2_counterexample :
    WriteOnly.modify 8 1 (PosArg.single Status.Dead.Set) ≠
      WriteOnly.modify 8 0 (PosArg.single Status.Dead.Set) := by
  decide

/-- C2 (amended): the WriteOnly-mode `modify` performs the same
read-modify-write as the ReadWrite-mode one: it reads the prior cell
value and stores `(raw & !positioned.mask()) | positioned.in_position()`,
so cross-field read-modify-write behaves exactly as in ReadWrite mode. -/
theorem C2_wo_modify_reads_back (w raw : Nat) (p : PosArg) :
    WriteOnly.modify w raw p =
      (raw &&& wnot w (p.mask w)) ||| p.in_position w ∧
    WriteOnly.modify w raw p = Register.modify w raw p :=
  ⟨rfl, rfl⟩

/-- C3: the bounded-value constructor succeeds exactly when
`l ≤ v ≤ u`, storing `v` unchanged, and fails with the explicit empty
result exactly when `v < l` or `v > u`. -/
theorem C3_bounded_new_iff (l u v : Nat) :
    (Bounded.new l u v = some ⟨v⟩ ↔ l ≤ v ∧ v ≤ u) ∧
    (Bounded.new l u v = none ↔ v < l ∨ u < v) := by
  unfold Bounded.new
  by_cases h : l ≤ v ∧ v ≤ u
  · rw [if_pos h]
    constructor
    · exact ⟨fun _ => h, fun _ => rfl⟩
    · constructor
      · intro hc
        exact Option.noConfusion hc
      · intro hc
        omega
  · rw [if_neg h]
    constructor
    · constructor
      · intro hc
        exact absurd hc (Option.noConfusion)
      · intro hc
        exact absurd hc h
    · constructor
      · intro _
        omega
      · intro _
        rfl

theorem lor_left_comm (a b c : Nat) : a ||| (b ||| c) = b ||| (a ||| c) := by
  rw [← Nat.lor_assoc, Nat.lor_comm a b, Nat.lor_assoc]

/-- C4: the `+`-combination of two positioned operands has mask
`a.mask() | b.mask()` and value `a.in_position() | b.in_position()`, and
for pairwise-disjoint masks it is commutative and associative: a
four-element chain yields the same mask and value in any grouping and
order the Rust operands admit. -/
theorem C4_combine_algebra (w : Nat) (a b c d : Field)
    (_hab : a.mask &&& b.mask = 0) (_hac : a.mask &&& c.mask = 0)
    (_had : a.mask &&& d.mask = 0) (_hbc : b.mask &&& c.mask = 0)
    (_hbd : b.mask &&& d.mask = 0) (_hcd : c.mask &&& d.mask = 0) :
    (Field.add w a b).mask = a.mask ||| b.mask ∧
    (Field.add w a b).val = a.in_position w ||| b.in_position w ∧
    Field.add w a b = Field.add w b a ∧
    FieldDisj.addField w (Field.add w a b) c =
      Field.addDisj w a (Field.add w b c) ∧
    FieldDisj.addField w (FieldDisj.addField w (Field.add w a b) c) d =
      Field.addDisj w a (Field.addDisj w b (Field.add w c d)) ∧
    FieldDisj.addField w (FieldDisj.addField w (Field.add w a b) c) d =
      FieldDisj.addField w (FieldDisj.addField w (Field.add w d c) b) a := by
  refine ⟨rfl, rfl, ?_, ?_, ?_, ?_⟩ <;>
    simp only [Field.add, FieldDisj.addField, Field.addDisj,
      FieldDisj.mk.injEq] <;>
    constructor <;>
    simp [Nat.lor_comm, Nat.lor_assoc, lor_left_comm]

/-- Witness for C4: commutativity at the disjoint `Status` fields
`On::Set`, `Dead::Set`, `Color::Blue` and the width-2 example field. -/
theorem C4_combine_algebra_witness :
    Field.add 8 Status.On.Set Status.Dead.Set =
      Field.add 8 Status.Dead.Set Status.On.Set :=
  (C4_combine_algebra 8 Status.On.Set Status.Dead.Set Status.Color.Blue
    Status.HighBits (by decide) (by decide) (by decide) (by decide)
    (by decide) (by decide)).2.2.1

/-- C5 counterexample: with raw register value 3 and the positioned
argument `On::Set` (in-position value 1), `matches_all` answers true even
though the register value read back differs from the in-position value,
so `matches_all` does not test the register value for equality with
`positioned.in_position()`. -/
theorem C5_counterexample :
    Register.matches_all 8 3 (PosArg.single Status.On.Set) = true ∧
    Register.read 3 ≠ (PosArg.single Status.On.Set).in_position 8 := by
  decide

/-- C5 (amended): on a ReadWrite register (and identically on a
ReadOnlyCopy snapshot, which carries the one read), `matches_any` is true
exactly when `(positioned.in_position() & raw) != 0`, and `matches_all`
is true exactly when
`(positioned.in_position() & raw) == positioned.in_position()`. -/
theorem C5_matches_spec (w raw : Nat) (p : PosArg) :
    (Register.matches_any w raw p = true ↔ p.in_position w &&& raw ≠ 0) ∧
    (Register.matches_all w raw p = true ↔
      p.in_position w &&& raw = p.in_position w) ∧
    ReadOnlyCopy.matches_any w raw p = Register.matches_any w raw p ∧
    ReadOnlyCopy.matches_all w raw p = Register.matches_all w raw p := by
  refine ⟨?_, ?_, rfl, rfl⟩
  · simp [Register.matches_any]
  · simp [Register.matches_all]

/-- C6: reading a field back immediately after modifying it with value
`v` returns a field whose raw value is `v`: `get_field` extracts
`(raw & mask) >> offset` from the stored value and revalidates it. -/
theorem C6_get_field_after_modify (w k raw : Nat) (f g : Field)
    (hf : f.wfWidth w k) (hm : g.mask = f.mask) (ho : g.offset = f.offset)
    (hu : g.upper = f.upper) :
    (Register.get_field (Register.modify w raw (PosArg.single f)) g).map
      Field.val = some f.val := by
  have hwf : f.wf w := ⟨k, hf⟩
  obtain ⟨hip, hs, hmlt⟩ := field_spec w f hwf
  have h2 := (modify_core w f.mask (f.in_position w) raw hmlt hs).2
  have hmod : Register.modify w raw (PosArg.single f) &&& f.mask =
      f.val <<< f.offset := by
    rw [← hip]
    exact h2
  have hval : f.val ≤ g.upper := by
    rw [hu]
    exact hf.2.2.2
  show (Field.set g
    ((Register.modify w raw (PosArg.single f) &&& g.mask) >>> g.offset)).map
      Field.val = some f.val
  rw [hm, ho, hmod, shift_roundtrip]
  unfold Field.set Bounded.new
  rw [if_pos ⟨Nat.zero_le _, hval⟩]
  rfl

/-- Witness for C6: writing `Color::Blue` into a `Status` register whose
raw value is 5 and reading `Color` back yields 2. -/
theorem C6_get_field_after_modify_witness :
    (Register.get_field
        (Register.modify 8 5 (PosArg.single Status.Color.Blue))
        Status.Color.Read).map Field.val = some Status.Color.Blue.val :=
  C6_get_field_after_modify 8 3 5 Status.Color.Blue Status.Color.Read
    (by decide) (by decide) (by decide) (by decide)

/-- C7: example scenarios of the `Status` register. Scenario A: from raw
value 0, `modify(Color::Blue)` stores 8, and reading `Color` back yields
2. Scenario B: from raw value 0,
`modify(Dead::Set + Color::Blue + On::Clear)` stores 10. -/
theorem C7_status_scenarios :
    Register.modify 8 0 (PosArg.single Status.Color.Blue) = 8 ∧
    Register.read (Register.modify 8 0 (PosArg.single Status.Color.Blue)) = 8 ∧
    (Register.get_field 8 Status.Color.Read).map Field.val = some 2 ∧
    Register.modify 8 0
      (PosArg.combined
        (DisjExpr.df (DisjExpr.ff Status.Dead.Set Status.Color.Blue)
          Status.On.Clear)) = 10 := by
  decide

/-- Modelled scenario harness for a failed construction: attempt to build
a field from a raw value and, only on success, apply it to the register
with `modify`; on failure the register value is returned untouched. -/
def constructAndModify (w raw mask off upper v : Nat) : Nat :=
  match Field.new mask off upper v with
  | none => raw
  | some f => Register.modify w raw (PosArg.single f)

/-- C8: constructing a field with a value at or above `2^width` returns
the explicit empty result, the register state is unchanged by the failed
construction, and a later in-range value succeeds. -/
theorem C8_field_new_out_of_range (w k mask off raw v v2 : Nat)
    (hv : 2 ^ k ≤ v) (hv2 : v2 < 2 ^ k) :
    Field.new mask off (ones k) v = none ∧
    constructAndModify w raw mask off (ones k) v = raw ∧
    (Field.new mask off (ones k) v2).map Field.val = some v2 := by
  have hk : 0 < 2 ^ k := Nat.pos_pow_of_pos k (by norm_num)
  have hno : ¬(0 ≤ v ∧ v ≤ ones k) := by
    unfold ones
    omega
  have hnone : Field.new mask off (ones k) v = none := by
    unfold Field.new Bounded.new
    rw [if_neg hno]
    rfl
  refine ⟨hnone, ?_, ?_⟩
  · unfold constructAndModify
    rw [hnone]
  · have hyes : 0 ≤ v2 ∧ v2 ≤ ones k := by
      unfold ones
      omega
    unfold Field.new Bounded.new
    rw [if_pos hyes]
    rfl

/-- Witness for C8 on the shape of the `Color` field: width 3, value 9
fails and leaves a register holding 5 untouched; value 4 succeeds. -/
theorem C8_field_new_out_of_range_witness :
    Field.new 28 2 (ones 3) 9 = none ∧
    constructAndModify 8 5 28 2 (ones 3) 9 = 5 ∧
    (Field.new 28 2 (ones 3) 4).map Field.val = some 4 :=
  C8_field_new_out_of_range 8 3 28 2 5 9 4 (by decide) (by decide)

/-- C9: `extract` captures the raw value in one read, and every query on
the resulting `ReadOnlyCopy` snapshot returns the same result as the
corresponding query on a register holding the snapshotted raw value. -/
theorem C9_extract_snapshot_equiv (w raw : Nat) (f : Field) (p : PosArg) :
    ReadOnlyCopy.read (Register.extract raw) = Register.read raw ∧
    ReadOnlyCopy.get_field (Register.extract raw) f =
      Register.get_field raw f ∧
    ReadOnlyCopy.is_set (Register.extract raw) f = Register.is_set raw f ∧
    ReadOnlyCopy.matches_any w (Register.extract raw) p =
      Register.matches_any w raw p ∧
    ReadOnlyCopy.matches_all w (Register.extract raw) p =
      Register.matches_all w raw p :=
  ⟨rfl, rfl, rfl, rfl, rfl⟩

/-- C10: for a macro-generated descriptor with mask
`((1 << width) - 1) << offset` and upper bound `2^width - 1`, the
extracted value `(raw & mask) >> offset` never exceeds the upper bound,
so `get_field` returns `Some` for every raw value, on a register and on a
`ReadOnlyCopy` snapshot alike. -/
theorem C10_get_field_total (k raw : Nat) (f : Field)
    (hu : f.upper = ones k) (hm : f.mask = ones k <<< f.offset) :
    (raw &&& f.mask) >>> f.offset ≤ f.upper ∧
    (Register.get_field raw f).isSome = true ∧
    (ReadOnlyCopy.get_field raw f).isSome = true := by
  have hle : (raw &&& f.mask) >>> f.offset ≤ f.upper := by
    have h1 : raw &&& f.mask ≤ f.mask := Nat.and_le_right
    have h2 : (raw &&& f.mask) >>> f.offset ≤ f.mask >>> f.offset := by
      simp only [Nat.shiftRight_eq_div_pow]
      exact Nat.div_le_div_right h1
    have h3 : f.mask >>> f.offset = ones k := by
      rw [hm, shift_roundtrip]
    rw [hu]
    rw [h3] at h2
    exact h2
  have hsome : (Field.set f ((raw &&& f.mask) >>> f.offset)).isSome = true := by
    unfold Field.set Bounded.new
    rw [if_pos ⟨Nat.zero_le _, hle⟩]
    rfl
  exact ⟨hle, hsome, hsome⟩

/-- Witness for C10 at the `Color` descriptor with the all-ones raw
value 255. -/
theorem C10_get_field_total_witness :
    (255 &&& Status.Color.Read.mask) >>> Status.Color.Read.offset ≤
      Status.Color.Read.upper ∧
    (Register.get_field 255 Status.Color.Read).isSome = true ∧
    (ReadOnlyCopy.get_field 255 Status.Color.Read).isSome = true :=
  C10_get_field_total 3 255 Status.Color.Read (by decide) (by decide)

end BoundedRegisters
